import Mathlib

/-!
Verification of the CHIP-8 virtual machine specified for the
`test-programs/chip-8-rust` crate.  The crate's `main.rs` declares the
modules `cpu`, `machine` and `memory`, but only `main.rs` itself is
present in the sources; the virtual-machine components are therefore
modelled from the specification, while the entry point and the panic
handler are embedded directly from `main.rs`.
-/

namespace Chip8

/-- Modelled from the spec: the error taxonomy of section 7
(`AddressOutOfBounds`, `StackOverflow`, `StackUnderflow`,
`ProgramTooLarge`, `InvalidOpcode`, `UnmappedFont`); the `cpu.rs`,
`machine.rs` and `memory.rs` files that would define it are missing
from the sources. -/
inductive Fault where
  | AddressOutOfBounds
  | StackOverflow
  | StackUnderflow
  | ProgramTooLarge
  | InvalidOpcode
  | UnmappedFont
deriving DecidableEq, Repr

/-- Modelled from the spec: the 4096-byte address space owned by the
missing `memory.rs`.  A byte is stored for every natural address; only
addresses below 4096 are reachable through the operations. -/
structure Memory where
  data : Nat → Nat

/-- Modelled from the spec: `read_byte(addr)` of the missing
`memory.rs`; any read outside [0, 4095] fails with
`AddressOutOfBounds`. -/
def Memory.read_byte (m : Memory) (addr : Nat) : Except Fault Nat :=
  if addr < 4096 then .ok (m.data addr % 256) else .error .AddressOutOfBounds

/-- Modelled from the spec: `write_byte(addr, value)` of the missing
`memory.rs`; any write outside [0, 4095] fails with
`AddressOutOfBounds`. -/
def Memory.write_byte (m : Memory) (addr value : Nat) : Except Fault Memory :=
  if addr < 4096 then
    .ok ⟨fun a => if a = addr then value % 256 else m.data a⟩
  else .error .AddressOutOfBounds

/-- Modelled from the spec: `read_word(addr)` of the missing
`memory.rs`, the big-endian word formed by two consecutive bytes. -/
def Memory.read_word (m : Memory) (addr : Nat) : Except Fault Nat := do
  let hi ← m.read_byte addr
  let lo ← m.read_byte (addr + 1)
  pure (hi * 256 + lo)

/-- Modelled from the spec: `load_program(bytes)` of the missing
`memory.rs`; copies `bytes` starting at 0x200 and fails with
`ProgramTooLarge` if `len(bytes) > 0xE00` (3584). -/
def Memory.load_program (m : Memory) (bytes : List Nat) : Except Fault Memory :=
  if bytes.length > 0xE00 then .error .ProgramTooLarge
  else
    .ok ⟨fun a =>
      if 0x200 ≤ a ∧ a < 0x200 + bytes.length then bytes.getD (a - 0x200) 0 % 256
      else m.data a⟩

/-- The all-zero memory, used as a concrete instance in witnesses. -/
def Memory.zero : Memory := ⟨fun _ => 0⟩

/-- Modelled from the spec: the CPU state of the missing `cpu.rs` —
sixteen 8-bit registers V0–VF, the 16-bit address register I, the
16-bit program counter, a stack pointer in [0,16], a stack of sixteen
16-bit return addresses, and the delay and sound timers.  Registers
and stack slots are stored for every natural index; the operations
only touch indices 0–15. -/
structure Cpu where
  v : Nat → Nat
  i : Nat
  pc : Nat
  sp : Nat
  stack : Nat → Nat
  delay : Nat
  sound : Nat

/-- A concrete all-zero CPU state with PC at the program start 0x200,
used in witnesses. -/
def Cpu.init : Cpu :=
  { v := fun _ => 0, i := 0, pc := 0x200, sp := 0, stack := fun _ => 0
    delay := 0, sound := 0 }

/-- Modelled from the spec: the `CALL addr` opcode of the missing
`cpu.rs` — push PC+2 (as a 16-bit value), fail with `StackOverflow`
if SP=16 (SP is kept in [0,16], so the full slots are exactly SP=16),
and set PC to `addr`. -/
def Cpu.callOp (c : Cpu) (addr : Nat) : Except Fault Cpu :=
  if c.sp < 16 then
    .ok { c with
          stack := fun j => if j = c.sp then (c.pc + 2) % 65536 else c.stack j
          sp := c.sp + 1
          pc := addr }
  else .error .StackOverflow

/-- Modelled from the spec: the `RET` opcode of the missing `cpu.rs` —
pop the stack into PC, failing with `StackUnderflow` if SP=0. -/
def Cpu.retOp (c : Cpu) : Except Fault Cpu :=
  if c.sp = 0 then .error .StackUnderflow
  else .ok { c with sp := c.sp - 1, pc := c.stack (c.sp - 1) }

/-- Modelled from the spec: the `ADD VX,VY` opcode of the missing
`cpu.rs` — VX becomes (VX+VY) mod 256, VF becomes 1 when the unsigned
sum exceeds 255 and 0 otherwise, and PC advances by 2. -/
def Cpu.addReg (c : Cpu) (x y : Nat) : Cpu :=
  let sum := c.v x + c.v y
  { c with
    v := fun j =>
      if j = 15 then (if sum > 255 then 1 else 0)
      else if j = x then sum % 256
      else c.v j
    pc := (c.pc + 2) % 65536 }

/-- Modelled from the spec: `tick_timers()` of the missing
`machine.rs` — decrement the delay and sound timers by 1 if nonzero,
so that a zero timer stays at zero. -/
def Cpu.tick_timers (c : Cpu) : Cpu :=
  { c with
    delay := if c.delay = 0 then 0 else c.delay - 1
    sound := if c.sound = 0 then 0 else c.sound - 1 }

/-- Iterated `CALL` to a fixed address, used to express the nested-call
bound. -/
def Cpu.callN (c : Cpu) (addr : Nat) : Nat → Except Fault Cpu
  | 0 => .ok c
  | n + 1 => (c.callN addr n).bind (fun c' => c'.callOp addr)

/-- Modelled from the spec: the 64×32 monochrome framebuffer of the
missing display component (set = lit).  A pixel is stored for every
pair of naturals; drawing only touches rows below 32 and columns
below 64. -/
structure Display where
  fb : Nat → Nat → Bool

/-- The all-clear display, used as a concrete instance in witnesses. -/
def Display.blank : Display := ⟨fun _ _ => false⟩

/-- Bit `i` (0 = most significant) of the byte `b`. -/
def byteBit (b i : Nat) : Bool := b / 2 ^ (7 - i) % 2 == 1

/-- Sequentially XOR a list of single-bit writes `(row, col, bit)` into
a display, accumulating a collision flag that becomes true whenever a
lit pixel is XORed with a set bit (a set-to-clear transition). -/
def Display.xorBits : Display → Bool → List (Nat × Nat × Bool) → Display × Bool
  | d, coll, [] => (d, coll)
  | d, coll, (r, c, b) :: rest =>
    Display.xorBits
      ⟨fun r' c' => if r' = r ∧ c' = c then xor (d.fb r c) b else d.fb r' c'⟩
      (coll || (d.fb r c && b)) rest

/-- The eight single-bit writes of one sprite row `b` into framebuffer
row `row`, starting at column `x mod 64` and wrapping horizontally. -/
def rowPoints (x row b : Nat) : List (Nat × Nat × Bool) :=
  (List.range 8).map (fun i => (row, (x + i) % 64, byteBit b i))

/-- All single-bit writes of a sprite drawn at `(x, y)`, with `r0` the
index of the first remaining row: row `k` of the remainder lands in
framebuffer row `(y + (r0 + k)) mod 32`. -/
def spritePoints (x y : Nat) : List Nat → Nat → List (Nat × Nat × Bool)
  | [], _ => []
  | b :: rest, r0 => rowPoints x ((y + r0) % 32) b ++ spritePoints x y rest (r0 + 1)

/-- Modelled from the spec: `draw_sprite(x, y, sprite_bytes)` of the
missing display component — for each row `r` of the sprite, XOR the 8
bits of the row byte into framebuffer row `(y+r) mod 32` starting at
column `x mod 64`, wrapping horizontally within the row; the returned
flag is true when some bit transitioned from set to clear. -/
def Display.draw_sprite (d : Display) (x y : Nat) (sprite : List Nat) : Display × Bool :=
  Display.xorBits d false (spritePoints x y sprite 0)

/-- Two single-bit writes target different pixels. -/
def diffPos (p q : Nat × Nat × Bool) : Prop := p.1 ≠ q.1 ∨ p.2.1 ≠ q.2.1

/-- Modelled from the spec: the 35-variant instruction type produced by
`decode` in the missing `cpu.rs`, one constructor per instruction form
of the opcode table. -/
inductive Instruction where
  | CLS
  | RET
  | JP (addr : Nat)
  | CALL (addr : Nat)
  | SE (x kk : Nat)
  | SNE (x kk : Nat)
  | SEreg (x y : Nat)
  | LDbyte (x kk : Nat)
  | ADDbyte (x kk : Nat)
  | LDreg (x y : Nat)
  | ORreg (x y : Nat)
  | ANDreg (x y : Nat)
  | XORreg (x y : Nat)
  | ADDreg (x y : Nat)
  | SUBreg (x y : Nat)
  | SHRreg (x y : Nat)
  | SUBNreg (x y : Nat)
  | SHLreg (x y : Nat)
  | SNEreg (x y : Nat)
  | LDI (addr : Nat)
  | JPV0 (addr : Nat)
  | RND (x kk : Nat)
  | DRW (x y n : Nat)
  | SKP (x : Nat)
  | SKNP (x : Nat)
  | LDVxDT (x : Nat)
  | LDVxK (x : Nat)
  | LDDTVx (x : Nat)
  | LDSTVx (x : Nat)
  | ADDIVx (x : Nat)
  | LDF (x : Nat)
  | LDB (x : Nat)
  | LDIVx (x : Nat)
  | LDVxI (x : Nat)
deriving DecidableEq, Repr

/-- Modelled from the spec: `decode(word)` of the missing `cpu.rs` —
a function of the 16-bit word alone, dispatching on the high nibble
and, for the ambiguous groups 0x0, 0x8, 0xE and 0xF, on the low byte
or low nibble; unrecognized patterns fail with `InvalidOpcode`. -/
def decode (w : Nat) : Except Fault Instruction :=
  let word := w % 65536
  let x := word / 256 % 16
  let y := word / 16 % 16
  let n := word % 16
  let kk := word % 256
  let nnn := word % 4096
  match word / 4096 with
  | 0 =>
    if word = 0x00E0 then .ok .CLS
    else if word = 0x00EE then .ok .RET
    else .error .InvalidOpcode
  | 1 => .ok (.JP nnn)
  | 2 => .ok (.CALL nnn)
  | 3 => .ok (.SE x kk)
  | 4 => .ok (.SNE x kk)
  | 5 => if n = 0 then .ok (.SEreg x y) else .error .InvalidOpcode
  | 6 => .ok (.LDbyte x kk)
  | 7 => .ok (.ADDbyte x kk)
  | 8 =>
    match n with
    | 0 => .ok (.LDreg x y)
    | 1 => .ok (.ORreg x y)
    | 2 => .ok (.ANDreg x y)
    | 3 => .ok (.XORreg x y)
    | 4 => .ok (.ADDreg x y)
    | 5 => .ok (.SUBreg x y)
    | 6 => .ok (.SHRreg x y)
    | 7 => .ok (.SUBNreg x y)
    | 14 => .ok (.SHLreg x y)
    | _ => .error .InvalidOpcode
  | 9 => if n = 0 then .ok (.SNEreg x y) else .error .InvalidOpcode
  | 10 => .ok (.LDI nnn)
  | 11 => .ok (.JPV0 nnn)
  | 12 => .ok (.RND x kk)
  | 13 => .ok (.DRW x y n)
  | 14 =>
    if kk = 0x9E then .ok (.SKP x)
    else if kk = 0xA1 then .ok (.SKNP x)
    else .error .InvalidOpcode
  | _ =>
    match kk with
    | 0x07 => .ok (.LDVxDT x)
    | 0x0A => .ok (.LDVxK x)
    | 0x15 => .ok (.LDDTVx x)
    | 0x18 => .ok (.LDSTVx x)
    | 0x1E => .ok (.ADDIVx x)
    | 0x29 => .ok (.LDF x)
    | 0x33 => .ok (.LDB x)
    | 0x55 => .ok (.LDIVx x)
    | 0x65 => .ok (.LDVxI x)
    | _ => .error .InvalidOpcode

/-- Concrete memory holding the opcode 0x6123 at 0x200, for the decode
witness. -/
def memA : Memory :=
  ⟨fun a => if a = 0x200 then 0x61 else if a = 0x201 then 0x23 else 0⟩

/-- Concrete memory holding the same two bytes at 0x200 but different
contents everywhere else, for the decode witness. -/
def memB : Memory :=
  ⟨fun a => if a = 0x200 then 0x61 else if a = 0x201 then 0x23 else 0xFF⟩

/-- The virtual-machine operations the entry point could invoke. -/
inductive MachineCall where
  | machineInit
  | machineStep
  | machineTick
deriving DecidableEq, Repr

/-- Embedded from `src/test-programs/chip-8-rust/src/main.rs` lines
16–19: the body of `main` is `loop {}`, a loop whose body contains no
statements, so one iteration invokes no machine operation and leaves
the (empty) local state unchanged.  The state pairs the (trivial)
local variables with the list of machine operations invoked so far. -/
def mainLoopIter (s : Unit × List MachineCall) : Unit × List MachineCall := s

/-- The machine operations `main` has invoked after `n` iterations of
its loop; no statement precedes the loop in `main`, so the trace
starts empty. -/
def mainCalls (n : Nat) : List MachineCall :=
  (Nat.iterate mainLoopIter n ((), [])).2

/-- Control state of the panic handler embedded from `main.rs` lines
11–14 (`fn panic(_info: &PanicInfo) -> ! { loop {} }`): the body is a
single `loop {}` whose sole control point is the loop head. -/
inductive PanicState where
  | looping
deriving DecidableEq, Repr

/-- One small step of the panic handler: the loop body is empty and
contains no `break` or `return`, so from the loop head execution goes
back to the loop head; `none` would represent returning to the
caller, which no control path produces. -/
def panicStep : PanicState → Option PanicState
  | .looping => some .looping

/-- Running the panic handler for `n` steps on a panic payload `info`
(which the handler ignores); `none` means it has returned to its
caller. -/
def panicHandler (Info : Type) (_info : Info) (n : Nat) : Option PanicState :=
  Nat.iterate (fun s => s.bind panicStep) n (some PanicState.looping)

/-- A successful `CALL` increments SP by one, so `n` nested calls from
a state with `sp + n ≤ 16` succeed and land at depth `sp + n`. -/
theorem callN_ok_sp (addr : Nat) : ∀ (n : Nat) (c : Cpu), c.sp + n ≤ 16 →
    ∃ c', c.callN addr n = Except.ok c' ∧ c'.sp = c.sp + n := by
  intro n
  induction n with
  | zero => exact fun c _ => ⟨c, rfl, rfl⟩
  | succ n ih =>
    intro c h
    obtain ⟨c', hc', hsp⟩ := ih c (by omega)
    have hlt : c'.sp < 16 := by omega
    have hstep : c.callN addr (n + 1) = c'.callOp addr := by
      rw [Cpu.callN, hc']
      rfl
    have hcall : c'.callOp addr = Except.ok
        { c' with
          stack := fun j => if j = c'.sp then (c'.pc + 2) % 65536 else c'.stack j
          sp := c'.sp + 1
          pc := addr } := by
      rw [Cpu.callOp, if_pos hlt]
    refine ⟨_, hstep.trans hcall, ?_⟩
    show c'.sp + 1 = c.sp + (n + 1)
    omega

/-- Ticking the timers `n` times truncates the delay timer by `n`,
stopping at zero. -/
theorem tickN_delay (n : Nat) : ∀ c : Cpu,
    (Nat.iterate Cpu.tick_timers n c).delay = c.delay - n := by
  induction n with
  | zero => intro c; rfl
  | succ n ih =>
    intro c
    rw [Function.iterate_succ_apply, ih]
    show (if c.delay = 0 then 0 else c.delay - 1) - n = c.delay - (n + 1)
    split_ifs with h <;> omega

/-- C1: contrary to the claim, the entry function of `main.rs` performs
no fetch-decode-execute cycle at all — after any number of iterations
of its `loop {}` body, `main` has invoked no `Machine.init`,
`Machine.step` or `Machine.tick_timers` operation. -/
theorem main_loop_performs_no_machine_calls : ∀ n : Nat, mainCalls n = [] := by
  intro n
  have hid : mainLoopIter = id := rfl
  unfold mainCalls
  rw [hid, Function.iterate_id]
  rfl

/-- C10: the panic handler of `main.rs` never returns — for every panic
payload and every number of executed steps it is still at the head of
its infinite loop, so it never resumes or unwinds into caller code. -/
theorem panic_handler_never_returns :
    ∀ (Info : Type) (info : Info) (n : Nat),
      panicHandler Info info n = some PanicState.looping := by
  intro Info info n
  unfold panicHandler
  induction n with
  | zero => rfl
  | succ n ih => rw [Function.iterate_succ_apply', ih]; rfl

/-- C6: `tick_timers` decrements a nonzero delay or sound timer by one
and leaves a zero timer at zero; a delay timer of 5 reaches 0 after
five ticks and stays there under further ticks. -/
theorem tick_timers_spec (c : Cpu) :
    (c.delay ≠ 0 → (c.tick_timers).delay = c.delay - 1) ∧
    (c.delay = 0 → (c.tick_timers).delay = 0) ∧
    (c.sound ≠ 0 → (c.tick_timers).sound = c.sound - 1) ∧
    (c.sound = 0 → (c.tick_timers).sound = 0) ∧
    (c.delay = 5 →
      (Nat.iterate Cpu.tick_timers 5 c).delay = 0 ∧
      ∀ k : Nat, (Nat.iterate Cpu.tick_timers (5 + k) c).delay = 0) := by
  refine ⟨?_, ?_, ?_, ?_, ?_⟩
  · intro h; simp [Cpu.tick_timers, h]
  · intro h; simp [Cpu.tick_timers, h]
  · intro h; simp [Cpu.tick_timers, h]
  · intro h; simp [Cpu.tick_timers, h]
  · intro h
    constructor
    · rw [tickN_delay, h]
    · intro k; rw [tickN_delay, h]; omega

/-- Witness for C6 at a concrete state with delay 5 and sound 3. -/
theorem tick_timers_spec_witness :
    (({ Cpu.init with delay := 5, sound := 3 } : Cpu).tick_timers).delay = 4 ∧
    (({ Cpu.init with delay := 5, sound := 3 } : Cpu).tick_timers).sound = 2 ∧
    (Nat.iterate Cpu.tick_timers 5 ({ Cpu.init with delay := 5, sound := 3 } : Cpu)).delay = 0 ∧
    (Nat.iterate Cpu.tick_timers 7 ({ Cpu.init with delay := 5, sound := 3 } : Cpu)).delay = 0 := by
  have h := tick_timers_spec ({ Cpu.init with delay := 5, sound := 3 } : Cpu)
  have h5 := h.2.2.2.2 rfl
  exact ⟨h.1 (by decide), h.2.2.1 (by decide), h5.1, h5.2 2⟩

/-- C2: CALL with SP=16 fails with `StackOverflow` and RET with SP=0
fails with `StackUnderflow`; otherwise CALL pushes PC+2 and jumps to
the target, RET pops the stack into PC, and from SP=0 sixteen nested
CALLs succeed while the seventeenth fails. -/
theorem call_ret_stack_bounds (c : Cpu) (addr : Nat) :
    (c.sp = 16 → c.callOp addr = Except.error Fault.StackOverflow) ∧
    (c.sp = 0 → c.retOp = Except.error Fault.StackUnderflow) ∧
    (c.sp < 16 → c.callOp addr = Except.ok
      { c with
        stack := fun j => if j = c.sp then (c.pc + 2) % 65536 else c.stack j
        sp := c.sp + 1
        pc := addr }) ∧
    (c.sp ≠ 0 → c.retOp = Except.ok { c with sp := c.sp - 1, pc := c.stack (c.sp - 1) }) ∧
    (c.sp = 0 → ∃ c', c.callN addr 16 = Except.ok c' ∧
      c.callN addr 17 = Except.error Fault.StackOverflow) := by
  refine ⟨?_, ?_, ?_, ?_, ?_⟩
  · intro h; rw [Cpu.callOp, if_neg (by omega)]
  · intro h; rw [Cpu.retOp, if_pos h]
  · intro h; rw [Cpu.callOp, if_pos h]
  · intro h; rw [Cpu.retOp, if_neg h]
  · intro h
    obtain ⟨c', hc', hsp⟩ := callN_ok_sp addr 16 c (by omega)
    have h17 : c.callN addr 17 = (c.callN addr 16).bind (fun d => d.callOp addr) := rfl
    refine ⟨c', hc', ?_⟩
    rw [h17, hc']
    show c'.callOp addr = _
    rw [Cpu.callOp, if_neg (by omega)]

/-- Witness for C2 at the freshly initialized CPU state. -/
theorem call_ret_stack_bounds_witness :
    Cpu.init.retOp = Except.error Fault.StackUnderflow ∧
    (∃ c', Cpu.init.callN 0x300 16 = Except.ok c' ∧
      Cpu.init.callN 0x300 17 = Except.error Fault.StackOverflow) := by
  have h := call_ret_stack_bounds Cpu.init 0x300
  exact ⟨h.2.1 rfl, h.2.2.2.2 rfl⟩

/-- C7: from any state with SP < 16, CALL followed by RET restores PC
to the instruction after the CALL (PC+2, as a 16-bit value) and
returns SP to its prior depth. -/
theorem call_then_ret_roundtrip (c : Cpu) (addr : Nat) (h : c.sp < 16) :
    ∃ c', (c.callOp addr).bind Cpu.retOp = Except.ok c' ∧
      c'.pc = (c.pc + 2) % 65536 ∧ c'.sp = c.sp ∧
      (c.pc + 2 < 65536 → c'.pc = c.pc + 2) := by
  refine ⟨{ c with
      stack := fun j => if j = c.sp then (c.pc + 2) % 65536 else c.stack j
      sp := c.sp
      pc := (c.pc + 2) % 65536 }, ?_, rfl, rfl, fun hh => Nat.mod_eq_of_lt hh⟩
  rw [Cpu.callOp, if_pos h]
  show Cpu.retOp _ = _
  rw [Cpu.retOp, if_neg (by simp)]
  simp

/-- Witness for C7 at the freshly initialized CPU state. -/
theorem call_then_ret_roundtrip_witness :
    ∃ c', (Cpu.init.callOp 0x300).bind Cpu.retOp = Except.ok c' ∧
      c'.pc = 0x202 ∧ c'.sp = 0 := by
  obtain ⟨c', h1, h2, h3, h4⟩ := call_then_ret_roundtrip Cpu.init 0x300 (by decide)
  exact ⟨c', h1, h2.trans (by decide), h3⟩

/-- C3: ADD VX,VY (with VX not the flag register) stores the sum
modulo 256 into VX, sets VF to 1 exactly when the unsigned sum
exceeds 255 and to 0 otherwise, and advances PC by 2. -/
theorem add_reg_spec (c : Cpu) (x y : Nat) (hx : x < 16) (hy : y < 16) (hxf : x ≠ 15)
    (h8x : c.v x < 256) (h8y : c.v y < 256) :
    (c.addReg x y).v x = (c.v x + c.v y) % 256 ∧
    ((c.addReg x y).v 15 = if c.v x + c.v y > 255 then 1 else 0) ∧
    ((c.addReg x y).v 15 = 1 ↔ c.v x + c.v y > 255) ∧
    (c.addReg x y).pc = (c.pc + 2) % 65536 ∧
    (c.pc + 2 < 65536 → (c.addReg x y).pc = c.pc + 2) := by
  have hv : (c.addReg x y).v = fun j =>
      if j = 15 then (if c.v x + c.v y > 255 then 1 else 0)
      else if j = x then (c.v x + c.v y) % 256
      else c.v j := rfl
  refine ⟨?_, ?_, ?_, rfl, fun hh => Nat.mod_eq_of_lt hh⟩
  · simp only [hv]
    simp [hxf]
  · simp only [hv]
    simp
  · simp only [hv]
    simp only [if_pos trivial, if_true]
    split_ifs with hc <;> simp [hc]

/-- Concrete CPU with V0=200 and V1=100, for the ADD witness. -/
def addSample : Cpu :=
  { Cpu.init with v := fun j => if j = 0 then 200 else if j = 1 then 100 else 0 }

/-- Witness for C3: 200 + 100 = 300 overflows a byte, leaving V0=44
and VF=1 with PC advanced from 0x200 to 0x202. -/
theorem add_reg_spec_witness :
    (addSample.addReg 0 1).v 0 = 44 ∧ (addSample.addReg 0 1).v 15 = 1 ∧
    (addSample.addReg 0 1).pc = 0x202 := by
  have h := add_reg_spec addSample 0 1 (by decide) (by decide) (by decide)
    (by decide) (by decide)
  refine ⟨h.1.trans (by decide), ?_, h.2.2.2.1.trans (by decide)⟩
  rw [h.2.2.1]
  decide

/-- C4: `load_program` copies the program bytes into memory starting
at 0x200, leaves all other addresses unchanged, and fails with
`ProgramTooLarge` exactly when more than 3584 bytes are given. -/
theorem load_program_spec (m : Memory) (bytes : List Nat) :
    (bytes.length ≤ 3584 →
      ∃ m', m.load_program bytes = Except.ok m' ∧
        (∀ k, k < bytes.length → m'.data (0x200 + k) = bytes.getD k 0 % 256) ∧
        (∀ a, a < 0x200 ∨ 0x200 + bytes.length ≤ a → m'.data a = m.data a)) ∧
    (bytes.length > 3584 → m.load_program bytes = Except.error Fault.ProgramTooLarge) := by
  constructor
  · intro h
    refine ⟨⟨fun a =>
      if 0x200 ≤ a ∧ a < 0x200 + bytes.length then bytes.getD (a - 0x200) 0 % 256
      else m.data a⟩, ?_, ?_, ?_⟩
    · rw [Memory.load_program, if_neg (by omega)]
    · intro k hk
      show (if 0x200 ≤ 0x200 + k ∧ 0x200 + k < 0x200 + bytes.length
        then bytes.getD (0x200 + k - 0x200) 0 % 256 else m.data (0x200 + k)) = _
      rw [if_pos ⟨by omega, by omega⟩]
      have hk' : 0x200 + k - 0x200 = k := by omega
      rw [hk']
    · intro a ha
      show (if 0x200 ≤ a ∧ a < 0x200 + bytes.length then _ else m.data a) = m.data a
      rw [if_neg (by omega)]
  · intro h
    rw [Memory.load_program, if_pos (by omega)]

/-- Witness for C4: loading exactly 3584 bytes succeeds and loading
3585 bytes fails with `ProgramTooLarge`. -/
theorem load_program_spec_witness :
    (∃ m', Memory.zero.load_program (List.replicate 3584 7) = Except.ok m') ∧
    Memory.zero.load_program (List.replicate 3585 7) =
      Except.error Fault.ProgramTooLarge := by
  constructor
  · obtain ⟨m', hm', -, -⟩ :=
      (load_program_spec Memory.zero (List.replicate 3584 7)).1
        (by rw [List.length_replicate])
    exact ⟨m', hm'⟩
  · exact (load_program_spec Memory.zero (List.replicate 3585 7)).2
      (by rw [List.length_replicate]; omega)

/-- C8: every byte read, byte write or word read reaching outside
[0, 4095] fails with `AddressOutOfBounds`, and no successful memory
operation changes the contents at any address ≥ 4096. -/
theorem memory_bounds_spec :
    (∀ (m : Memory) (addr : Nat), 4096 ≤ addr →
      m.read_byte addr = Except.error Fault.AddressOutOfBounds) ∧
    (∀ (m : Memory) (addr v : Nat), 4096 ≤ addr →
      m.write_byte addr v = Except.error Fault.AddressOutOfBounds) ∧
    (∀ (m : Memory) (addr : Nat), 4095 ≤ addr →
      m.read_word addr = Except.error Fault.AddressOutOfBounds) ∧
    (∀ (m : Memory) (addr v : Nat) (m' : Memory),
      m.write_byte addr v = Except.ok m' →
      addr < 4096 ∧ ∀ a, 4096 ≤ a → m'.data a = m.data a) ∧
    (∀ (m : Memory) (bytes : List Nat) (m' : Memory),
      m.load_program bytes = Except.ok m' →
      ∀ a, 4096 ≤ a → m'.data a = m.data a) := by
  refine ⟨?_, ?_, ?_, ?_, ?_⟩
  · intro m addr h
    rw [Memory.read_byte, if_neg (by omega)]
  · intro m addr v h
    rw [Memory.write_byte, if_neg (by omega)]
  · intro m addr h
    rcases Nat.lt_or_ge addr 4096 with h1 | h1
    · have ha : addr = 4095 := by omega
      subst ha
      rfl
    · have hrb : m.read_byte addr = Except.error Fault.AddressOutOfBounds := by
        rw [Memory.read_byte, if_neg (by omega)]
      unfold Memory.read_word
      rw [hrb]
      rfl
  · intro m addr v m' hok
    by_cases h : addr < 4096
    · rw [Memory.write_byte, if_pos h] at hok
      cases hok
      refine ⟨h, ?_⟩
      intro a ha
      show (if a = addr then v % 256 else m.data a) = m.data a
      rw [if_neg (by omega)]
    · rw [Memory.write_byte, if_neg h] at hok
      exact absurd hok (by simp)
  · intro m bytes m' hok a ha
    by_cases h : bytes.length ≤ 3584
    · rw [Memory.load_program, if_neg (by omega)] at hok
      cases hok
      show (if 0x200 ≤ a ∧ a < 0x200 + bytes.length then _ else m.data a) = m.data a
      rw [if_neg (by omega)]
    · rw [Memory.load_program, if_pos (by omega)] at hok
      exact absurd hok (by simp)

/-- Witness for C8 at concrete out-of-range addresses. -/
theorem memory_bounds_spec_witness :
    Memory.zero.read_byte 4096 = Except.error Fault.AddressOutOfBounds ∧
    Memory.zero.write_byte 5000 7 = Except.error Fault.AddressOutOfBounds ∧
    Memory.zero.read_word 4095 = Except.error Fault.AddressOutOfBounds := by
  have h := memory_bounds_spec
  exact ⟨h.1 Memory.zero 4096 (by decide), h.2.1 Memory.zero 5000 7 (by decide),
    h.2.2.1 Memory.zero 4095 (by decide)⟩

/-- C9: fetching reads only the two bytes at PC and PC+1, and decoding
is a function of the fetched word alone — two states agreeing on those
two bytes fetch the same word and decode to the same instruction,
whatever the rest of memory holds. -/
theorem decode_pure_of_bytes (m1 m2 : Memory) (pc1 pc2 : Nat)
    (hb1 : pc1 + 1 < 4096) (hb2 : pc2 + 1 < 4096)
    (h1 : m1.data pc1 % 256 = m2.data pc2 % 256)
    (h2 : m1.data (pc1 + 1) % 256 = m2.data (pc2 + 1) % 256) :
    m1.read_word pc1 = m2.read_word pc2 ∧
    (m1.read_word pc1).bind decode = (m2.read_word pc2).bind decode := by
  have ha : m1.read_byte pc1 = m2.read_byte pc2 := by
    rw [Memory.read_byte, Memory.read_byte, if_pos (by omega), if_pos (by omega), h1]
  have hb : m1.read_byte (pc1 + 1) = m2.read_byte (pc2 + 1) := by
    rw [Memory.read_byte, Memory.read_byte, if_pos (by omega), if_pos (by omega), h2]
  have hw : m1.read_word pc1 = m2.read_word pc2 := by
    unfold Memory.read_word
    simp only [ha, hb]
  exact ⟨hw, by rw [hw]⟩

/-- Witness for C9: two memories holding 0x61 0x23 at 0x200 but
differing everywhere else fetch the same word and decode it to the
same instruction. -/
theorem decode_pure_of_bytes_witness :
    memA.read_word 0x200 = memB.read_word 0x200 ∧
    (memA.read_word 0x200).bind decode = (memB.read_word 0x200).bind decode :=
  decode_pure_of_bytes memA memB 0x200 0x200 (by decide) (by decide)
    (by decide) (by decide)

/-- Shifting by a nonzero amount below the modulus changes a residue. -/
theorem mod_shift_ne (a d m : Nat) (hd0 : 0 < d) (hdm : d < m) :
    a % m ≠ (a + d) % m := by
  intro h
  have h' : a + 0 ≡ a + d [MOD m] := by rwa [Nat.add_zero]
  have h0 : (0 : Nat) ≡ d [MOD m] := Nat.ModEq.add_left_cancel' a h'
  have : d % m = 0 := by
    have := h0.symm
    unfold Nat.ModEq at this
    simpa using this
  rw [Nat.mod_eq_of_lt hdm] at this
  omega

/-- A pixel targeted by none of the writes is left unchanged by
`xorBits`. -/
theorem xorBits_fb_untouched :
    ∀ (pts : List (Nat × Nat × Bool)) (d : Display) (coll : Bool) (r c : Nat),
    (∀ r0 c0 b0, (r0, c0, b0) ∈ pts → r0 ≠ r ∨ c0 ≠ c) →
    ((Display.xorBits d coll pts).1).fb r c = d.fb r c := by
  intro pts
  induction pts with
  | nil => intro d coll r c _; rfl
  | cons p rest ih =>
    intro d coll r c h
    obtain ⟨r0, c0, b0⟩ := p
    have hrest : ∀ r1 c1 b1, (r1, c1, b1) ∈ rest → r1 ≠ r ∨ c1 ≠ c :=
      fun r1 c1 b1 hm => h r1 c1 b1 (List.mem_cons_of_mem _ hm)
    have hp := h r0 c0 b0 (List.mem_cons_self _ _)
    show ((Display.xorBits
      ⟨fun r' c' => if r' = r0 ∧ c' = c0 then xor (d.fb r0 c0) b0 else d.fb r' c'⟩
      (coll || (d.fb r0 c0 && b0)) rest).1).fb r c = d.fb r c
    rw [ih _ _ r c hrest]
    show (if r = r0 ∧ c = c0 then xor (d.fb r0 c0) b0 else d.fb r c) = d.fb r c
    rw [if_neg (by rcases hp with h' | h' <;> omega)]

/-- A pixel targeted by exactly one write takes the XOR of its old
value with the written bit. -/
theorem xorBits_fb_touched :
    ∀ (pts : List (Nat × Nat × Bool)) (d : Display) (coll : Bool) (r c : Nat) (b : Bool),
    pts.Pairwise diffPos → (r, c, b) ∈ pts →
    ((Display.xorBits d coll pts).1).fb r c = xor (d.fb r c) b := by
  intro pts
  induction pts with
  | nil => intro d coll r c b _ hm; cases hm
  | cons p rest ih =>
    intro d coll r c b hpw hm
    obtain ⟨r0, c0, b0⟩ := p
    rw [List.pairwise_cons] at hpw
    obtain ⟨hhead, hrest⟩ := hpw
    show ((Display.xorBits
      ⟨fun r' c' => if r' = r0 ∧ c' = c0 then xor (d.fb r0 c0) b0 else d.fb r' c'⟩
      (coll || (d.fb r0 c0 && b0)) rest).1).fb r c = xor (d.fb r c) b
    rcases List.mem_cons.mp hm with heq | hmem
    · obtain ⟨hr, hc, hb⟩ : r = r0 ∧ c = c0 ∧ b = b0 := by
        simpa [Prod.ext_iff] using heq
      subst hr; subst hc; subst hb
      have huntouched : ∀ r1 c1 b1, (r1, c1, b1) ∈ rest → r1 ≠ r ∨ c1 ≠ c := by
        intro r1 c1 b1 hm1
        have := hhead _ hm1
        rcases this with h' | h'
        · exact Or.inl (fun he => h' he.symm)
        · exact Or.inr (fun he => h' he.symm)
      rw [xorBits_fb_untouched rest _ _ r c huntouched]
      show (if r = r ∧ c = c then xor (d.fb r c) b else d.fb r c) = xor (d.fb r c) b
      rw [if_pos ⟨rfl, rfl⟩]
    · have hne : r0 ≠ r ∨ c0 ≠ c := by
        have := hhead _ hmem
        rcases this with h' | h'
        · exact Or.inl h'
        · exact Or.inr h'
      rw [ih _ _ r c b hrest hmem]
      show xor (if r = r0 ∧ c = c0 then xor (d.fb r0 c0) b0 else d.fb r c) b = xor (d.fb r c) b
      rw [if_neg (by rcases hne with h' | h' <;> omega)]

/-- With pairwise-distinct targets, the collision flag of `xorBits` is
set exactly when it was already set or some write hits a lit pixel
with a set bit. -/
theorem xorBits_snd_spec :
    ∀ (pts : List (Nat × Nat × Bool)) (d : Display) (coll : Bool),
    pts.Pairwise diffPos →
    ((Display.xorBits d coll pts).2 = true ↔
      coll = true ∨ ∃ r c b, (r, c, b) ∈ pts ∧ d.fb r c = true ∧ b = true) := by
  intro pts
  induction pts with
  | nil =>
    intro d coll _
    show coll = true ↔ _
    simp
  | cons p rest ih =>
    intro d coll hpw
    obtain ⟨r0, c0, b0⟩ := p
    rw [List.pairwise_cons] at hpw
    obtain ⟨hhead, hrest⟩ := hpw
    show (Display.xorBits
      ⟨fun r' c' => if r' = r0 ∧ c' = c0 then xor (d.fb r0 c0) b0 else d.fb r' c'⟩
      (coll || (d.fb r0 c0 && b0)) rest).2 = true ↔ _
    rw [ih _ _ hrest]
    constructor
    · rintro (hc | ⟨r, c, b, hm, hfb, hb⟩)
      · rcases Bool.or_eq_true_iff.mp hc with hc' | hc'
        · exact Or.inl hc'
        · rcases Bool.and_eq_true_iff.mp hc' with ⟨h1, h2⟩
          exact Or.inr ⟨r0, c0, b0, List.mem_cons_self _ _, h1, h2⟩
      · have hne : r0 ≠ r ∨ c0 ≠ c := by
          have := hhead _ hm
          rcases this with h' | h'
          · exact Or.inl h'
          · exact Or.inr h'
        have hfb' : d.fb r c = true := by
          have hif : (if r = r0 ∧ c = c0 then xor (d.fb r0 c0) b0 else d.fb r c) = true := hfb
          rwa [if_neg (by rcases hne with h' | h' <;> omega)] at hif
        exact Or.inr ⟨r, c, b, List.mem_cons_of_mem _ hm, hfb', hb⟩
    · rintro (hc | ⟨r, c, b, hm, hfb, hb⟩)
      · exact Or.inl (by rw [hc]; rfl)
      · rcases List.mem_cons.mp hm with heq | hmem
        · obtain ⟨hr, hc', hb'⟩ : r = r0 ∧ c = c0 ∧ b = b0 := by
            simpa [Prod.ext_iff] using heq
          subst hr; subst hc'; subst hb'
          exact Or.inl (by rw [hfb, hb]; simp)
        · have hne : r0 ≠ r ∨ c0 ≠ c := by
            have := hhead _ hmem
            rcases this with h' | h'
            · exact Or.inl h'
            · exact Or.inr h'
          refine Or.inr ⟨r, c, b, hmem, ?_, hb⟩
          show (if r = r0 ∧ c = c0 then xor (d.fb r0 c0) b0 else d.fb r c) = true
          rwa [if_neg (by rcases hne with h' | h' <;> omega)]

/-- Membership in `spritePoints`: the writes are exactly the bits
`(k, i)` of the sprite, row `k` of the remainder landing in
framebuffer row `(y + (r0 + k)) mod 32` and bit `i` in column
`(x + i) mod 64`. -/
theorem mem_spritePoints (x y : Nat) :
    ∀ (sprite : List Nat) (r0 : Nat) (p : Nat × Nat × Bool),
    p ∈ spritePoints x y sprite r0 ↔
    ∃ k, k < sprite.length ∧ ∃ i, i < 8 ∧
      p = ((y + (r0 + k)) % 32, (x + i) % 64, byteBit (sprite.getD k 0) i) := by
  intro sprite
  induction sprite with
  | nil => intro r0 p; simp [spritePoints]
  | cons b rest ih =>
    intro r0 p
    rw [spritePoints, List.mem_append]
    constructor
    · rintro (hmem | hmem)
      · rw [rowPoints, List.mem_map] at hmem
        obtain ⟨i, hi, rfl⟩ := hmem
        rw [List.mem_range] at hi
        exact ⟨0, by simp, i, hi, by simp⟩
      · obtain ⟨k, hk, i, hi, rfl⟩ := (ih (r0 + 1) p).1 hmem
        refine ⟨k + 1, by simpa using hk, i, hi, ?_⟩
        have harith : r0 + 1 + k = r0 + (k + 1) := by omega
        rw [harith, List.getD_cons_succ]
    · rintro ⟨k, hk, i, hi, rfl⟩
      cases k with
      | zero =>
        left
        rw [rowPoints, List.mem_map]
        exact ⟨i, List.mem_range.mpr hi, by simp⟩
      | succ k' =>
        right
        apply (ih (r0 + 1) _).2
        refine ⟨k', by simpa using hk, i, hi, ?_⟩
        have harith : r0 + (k' + 1) = r0 + 1 + k' := by omega
        rw [harith, List.getD_cons_succ]

/-- The writes of a sprite of at most 32 rows target pairwise-distinct
pixels: different rows land in different framebuffer rows mod 32, and
different bits of one row land in different columns mod 64. -/
theorem spritePoints_pairwise (x y : Nat) :
    ∀ (sprite : List Nat) (r0 : Nat), sprite.length ≤ 32 →
    (spritePoints x y sprite r0).Pairwise diffPos := by
  intro sprite
  induction sprite with
  | nil => intro r0 _; exact List.Pairwise.nil
  | cons b rest ih =>
    intro r0 hlen
    rw [spritePoints, List.pairwise_append]
    refine ⟨?_, ih (r0 + 1) (by simpa using Nat.le_of_succ_le hlen), ?_⟩
    · rw [rowPoints, List.pairwise_map]
      have hlt : (List.range 8).Pairwise (· < ·) := List.pairwise_lt_range 8
      refine hlt.imp_of_mem ?_
      intro i j hi hj hij
      rw [List.mem_range] at hi hj
      refine Or.inr ?_
      show (x + i) % 64 ≠ (x + j) % 64
      have hshift := mod_shift_ne (x + i) (j - i) 64 (by omega) (by omega)
      have : x + i + (j - i) = x + j := by omega
      rwa [this] at hshift
    · intro p hp q hq
      rw [rowPoints, List.mem_map] at hp
      obtain ⟨i, hi, rfl⟩ := hp
      obtain ⟨k, hk, j, hj, rfl⟩ := (mem_spritePoints x y rest (r0 + 1) q).1 hq
      refine Or.inl ?_
      show (y + r0) % 32 ≠ (y + (r0 + 1 + k)) % 32
      have hklen : k < rest.length := hk
      have hkb : k + 1 < 32 := by
        have : rest.length + 1 ≤ 32 := by simpa using hlen
        omega
      have hshift := mod_shift_ne (y + r0) (k + 1) 32 (by omega) hkb
      have : y + r0 + (k + 1) = y + (r0 + 1 + k) := by omega
      rwa [this] at hshift

/-- C5: `draw_sprite` XORs bit `i` of sprite row `r` into framebuffer
row `(y+r) mod 32` at column `(x+i) mod 64` (wrapping horizontally),
leaves every other pixel unchanged, and reports a collision exactly
when some pixel goes from set to clear; stated for sprites of at most
32 rows, which covers every DRW sprite (at most 15 rows). -/
theorem draw_sprite_spec (d : Display) (x y : Nat) (sprite : List Nat)
    (hlen : sprite.length ≤ 32) :
    (∀ r, r < sprite.length → ∀ i, i < 8 →
      ((d.draw_sprite x y sprite).1).fb ((y + r) % 32) ((x + i) % 64)
        = xor (d.fb ((y + r) % 32) ((x + i) % 64)) (byteBit (sprite.getD r 0) i)) ∧
    (∀ row col,
      (∀ r, r < sprite.length → ∀ i, i < 8 →
        ¬(row = (y + r) % 32 ∧ col = (x + i) % 64)) →
      ((d.draw_sprite x y sprite).1).fb row col = d.fb row col) ∧
    ((d.draw_sprite x y sprite).2 = true ↔
      ∃ row col, d.fb row col = true ∧
        ((d.draw_sprite x y sprite).1).fb row col = false) := by
  have hpw := spritePoints_pairwise x y sprite 0 hlen
  have htouch : ∀ r, r < sprite.length → ∀ i, i < 8 →
      ((y + r) % 32, (x + i) % 64, byteBit (sprite.getD r 0) i) ∈
        spritePoints x y sprite 0 := by
    intro r hr i hi
    apply (mem_spritePoints x y sprite 0 _).2
    exact ⟨r, hr, i, hi, by rw [Nat.zero_add]⟩
  unfold Display.draw_sprite
  refine ⟨?_, ?_, ?_⟩
  · intro r hr i hi
    exact xorBits_fb_touched _ d false _ _ _ hpw (htouch r hr i hi)
  · intro row col h
    apply xorBits_fb_untouched
    intro r0 c0 b0 hm
    obtain ⟨k, hk, i, hi, heq⟩ := (mem_spritePoints x y sprite 0 _).1 hm
    obtain ⟨h1, h2, -⟩ : r0 = (y + (0 + k)) % 32 ∧ c0 = (x + i) % 64 ∧
        b0 = byteBit (sprite.getD k 0) i := by
      simpa [Prod.ext_iff] using heq
    rw [Nat.zero_add] at h1
    have hnc := h k hk i hi
    subst h1; subst h2
    tauto
  · constructor
    · intro hcoll
      rcases (xorBits_snd_spec _ d false hpw).1 hcoll with hfalse | ⟨r, c, b, hm, hfb, hb⟩
      · exact absurd hfalse (by simp)
      · refine ⟨r, c, hfb, ?_⟩
        have hfinal := xorBits_fb_touched _ d false r c b hpw hm
        rw [hfinal, hfb, hb]
        rfl
    · rintro ⟨row, col, hset, hclear⟩
      by_cases hex : ∃ b, (row, col, b) ∈ spritePoints x y sprite 0
      · obtain ⟨b, hm⟩ := hex
        have hfinal := xorBits_fb_touched _ d false row col b hpw hm
        rw [hfinal, hset] at hclear
        have hb : b = true := by
          cases b
          · simp at hclear
          · rfl
        exact (xorBits_snd_spec _ d false hpw).2
          (Or.inr ⟨row, col, b, hm, hset, hb⟩)
      · exfalso
        have huntouched : ∀ r0 c0 b0, (r0, c0, b0) ∈ spritePoints x y sprite 0 →
            r0 ≠ row ∨ c0 ≠ col := by
          intro r0 c0 b0 hm
          by_contra hcon
          push_neg at hcon
          obtain ⟨h1, h2⟩ := hcon
          exact hex ⟨b0, by rw [h1, h2] at hm; exact hm⟩
        have hunch := xorBits_fb_untouched _ d false row col huntouched
        rw [hunch, hset] at hclear
        exact Bool.noConfusion hclear

/-- Concrete display with only pixel (0,0) lit, for the draw witness. -/
def drawSample : Display := ⟨fun r c => r == 0 && c == 0⟩

/-- Witness for C5: drawing the one-row sprite 0x80 at (0,0) on a
display whose pixel (0,0) is lit clears that pixel and reports a
collision. -/
theorem draw_sprite_spec_witness :
    ((drawSample.draw_sprite 0 0 [0x80]).1).fb 0 0 = false ∧
    (drawSample.draw_sprite 0 0 [0x80]).2 = true := by
  have h := draw_sprite_spec drawSample 0 0 [0x80] (by decide)
  have h1 := h.1 0 (by decide) 0 (by decide)
  have hfix : ((drawSample.draw_sprite 0 0 [0x80]).1).fb 0 0 =
      xor (drawSample.fb 0 0) (byteBit ([0x80].getD 0 0) 0) := h1
  have hfirst : ((drawSample.draw_sprite 0 0 [0x80]).1).fb 0 0 = false :=
    hfix.trans (by decide)
  exact ⟨hfirst, h.2.2.mpr ⟨0, 0, by decide, hfirst⟩⟩

end Chip8
